import Mathlib

/-!
Verification development for the `xcx-mesh` repository
(`src/vm/extensions/block/mesh.js` and its buffered variant).

The `Mesh` class is embedded shallowly: JavaScript `Map` objects become
insertion-ordered association lists, the mutable instance becomes an explicit
`MeshState` record, and each method becomes a pure function returning the new
state together with its observable effects (messages handed to
`connection.send`, `close()` calls on connections).  The identity codec
(`encodeToPeerID` / `decodeFromPeerID`) is embedded over `List Char`, with the
browser built-ins `btoa`, `atob`, `encodeURIComponent` and
`decodeURIComponent` modelled after their Web API semantics.
-/

/-- A primitive JavaScript value as it occurs in the extension's messages
(Scratch values are strings, numbers or booleans; `undefined` is what
`Map.prototype.get` returns for an absent key). -/
inductive JSVal
  | undefined
  | str (s : String)
  | num (n : Int)
  | boolean (b : Bool)
deriving DecidableEq, Repr

/-- `Map.prototype.get`: the value stored under `k`, or `undefined`. -/
def mapGet (m : List (String × JSVal)) (k : String) : JSVal :=
  match m.find? (fun p => p.1 == k) with
  | some p => p.2
  | none => JSVal.undefined

/-- `Map.prototype.set`: updates the entry in place if the key is present
(keeping insertion order), otherwise appends it. -/
def mapSet (m : List (String × JSVal)) (k : String) (v : JSVal) : List (String × JSVal) :=
  if m.any (fun p => p.1 == k) then
    m.map (fun p => if p.1 == k then (p.1, v) else p)
  else
    m ++ [(k, v)]

/-- A PeerJS `DataConnection` as observable by the mesh code: an object
identity (used by the `conn !== connection` relay test) and its `open` flag. -/
structure Conn where
  cid : Nat
  opn : Bool
deriving DecidableEq, Repr

/-- The PeerJS `Peer` handle as observable by the mesh code: only its
`disconnected` flag is consulted. -/
structure PeerHandle where
  disconnected : Bool
deriving DecidableEq, Repr

/-- One shared-event envelope `{sender, time, type, eventType, eventData}`
as built by `dispatchSharedEvent` and stored in `sharedEventBuffer`.
`sender` is `this.id`, which may be `null`, hence `Option String`. -/
structure EventEnv where
  sender : Option String
  time : Nat
  jsType : String
  eventType : String
  eventData : JSVal
deriving DecidableEq, Repr

/-- A wire message, tagged on its `type` field like the source's untyped
objects: `var` messages from `setSharedVar`, `event` messages from
`dispatchSharedEvent`, and the two handshake control commands. -/
inductive Envelope
  | varMsg (sender : Option String) (time : Nat) (key : String) (value : JSVal)
  | eventMsg (e : EventEnv)
  | syncRequest (sender : Option String) (time : Nat) (vars : List (String × JSVal))
  | syncAnswer (sender : Option String) (time : Nat) (vars : List (String × JSVal))
deriving DecidableEq, Repr

/-- The mutable fields of a `Mesh` instance (buffered variant: the fields set
by the constructor in `part_002`). -/
structure MeshState where
  peer : Option PeerHandle
  id : Option String
  connections : List (String × Conn)
  sharedVars : List (String × JSVal)
  sharedEventBuffer : List EventEnv
  sharedEventBufferLength : Nat
  sharedEventIndex : Nat
deriving DecidableEq, Repr

/-- The state established by the `Mesh` constructor. -/
def initMesh : MeshState where
  peer := none
  id := none
  connections := []
  sharedVars := []
  sharedEventBuffer := []
  sharedEventBufferLength := 10
  sharedEventIndex := 0

/-- `this.connections.get(remoteID)`. -/
def connectionsGet (conns : List (String × Conn)) (remoteID : String) : Option Conn :=
  (conns.find? (fun p => p.1 == remoteID)).map (fun p => p.2)

/-- `dataConnectionCount`: `this.connections.size`. -/
def dataConnectionCount (st : MeshState) : Nat :=
  st.connections.length

/-- `dataConnectionIDAt`: `Array.from(this.connections.keys())[index]`
(`undefined`, i.e. `none`, when out of range). -/
def dataConnectionIDAt (st : MeshState) (index : Nat) : Option String :=
  (st.connections.map (fun p => p.1))[index]?

/-- `onSharedEvent` (buffered variant): push the event, and if the buffer now
exceeds `sharedEventBufferLength`, `shift()` the oldest entry off the front
and decrement `sharedEventIndex`, clamping it at `0`. -/
def onSharedEvent (st : MeshState) (e : EventEnv) : MeshState :=
  let buf := st.sharedEventBuffer ++ [e]
  if buf.length > st.sharedEventBufferLength then
    { st with
      sharedEventBuffer := buf.tail
      sharedEventIndex := st.sharedEventIndex - 1 }
  else
    { st with sharedEventBuffer := buf }

/-- `nextSharedEvent`: returns the buffered event at `sharedEventIndex` and
advances the index, or `none` when the index has caught up. -/
def nextSharedEvent (st : MeshState) : MeshState × Option EventEnv :=
  if st.sharedEventBuffer.length ≤ st.sharedEventIndex then (st, none)
  else
    ({ st with sharedEventIndex := st.sharedEventIndex + 1 },
      st.sharedEventBuffer[st.sharedEventIndex]?)

/-- The `received` test of the buffered variant's `data` handler: the buffer
is non-empty and **every** buffered event equals the incoming one on all five
fields (the source uses `Array.prototype.every`). -/
def receivedCheck (buf : List EventEnv) (e : EventEnv) : Prop :=
  buf ≠ [] ∧ ∀ x ∈ buf, x.sender = e.sender ∧ x.time = e.time ∧
    x.jsType = e.jsType ∧ x.eventType = e.eventType ∧ x.eventData = e.eventData

instance (buf : List EventEnv) (e : EventEnv) : Decidable (receivedCheck buf e) := by
  unfold receivedCheck; infer_instance

/-- The `connection.on('data', ...)` handler installed by
`_setupDataConnection` (buffered variant).  `srcCid` is the object identity of
the connection the message arrived on; the returned list holds the
`conn.send(data)` calls made (connection identity, message). -/
def handleData (st : MeshState) (srcCid : Nat) (d : Envelope) :
    MeshState × List (Nat × Envelope) :=
  match d with
  | Envelope.varMsg sender time key value =>
    if mapGet st.sharedVars key ≠ value then
      ({ st with sharedVars := mapSet st.sharedVars key value },
        (st.connections.filter (fun c => c.2.cid ≠ srcCid)).map
          (fun c => (c.2.cid, Envelope.varMsg sender time key value)))
    else (st, [])
  | Envelope.eventMsg e =>
    if e.sender = st.id then (st, [])
    else if receivedCheck st.sharedEventBuffer e then (st, [])
    else
      (onSharedEvent st e,
        (st.connections.filter (fun c => c.2.cid ≠ srcCid)).map
          (fun c => (c.2.cid, Envelope.eventMsg e)))
  | _ => (st, [])

/-- `setSharedVar`: builds a `var` message stamped with `this.id` and the
current clock, sends it to every registered connection, then applies the value
to the local store.  `Date.now()` is modelled as the explicit `now` argument. -/
def setSharedVar (st : MeshState) (key : String) (value : JSVal) (now : Nat) :
    MeshState × List (Nat × Envelope) :=
  ({ st with sharedVars := mapSet st.sharedVars key value },
    st.connections.map (fun c => (c.2.cid, Envelope.varMsg st.id now key value)))

/-- The handshake merge loop `data.vars.forEach(([key, value]) =>
this.setSharedVar(key, value))`, run by the initiator on `syncRequest` and by
the responder on `syncAnswer`.  The clock is held fixed across the loop; no
claim depends on the timestamps. -/
def mergeVars (st : MeshState) (now : Nat) :
    List (String × JSVal) → MeshState × List (Nat × Envelope)
  | [] => (st, [])
  | (k, v) :: rest =>
    let r := setSharedVar st k v now
    let r2 := mergeVars r.1 now rest
    (r2.1, r.2 ++ r2.2)

/-- `dispatchSharedEvent`: builds an `event` envelope stamped with `this.id`
and the clock, sends it to every registered connection, then records it via
`onSharedEvent`. -/
def dispatchSharedEvent (st : MeshState) (eventType : String) (eventData : JSVal)
    (now : Nat) : MeshState × List (Nat × Envelope) :=
  let e : EventEnv :=
    { sender := st.id, time := now, jsType := "event"
      eventType := eventType, eventData := eventData }
  (onSharedEvent st e, st.connections.map (fun c => (c.2.cid, Envelope.eventMsg e)))

/-- `closePeer`: close every data connection, clear the registry, and if a
peer handle exists destroy it and null out `this.peer` and `this.id`.  The
second component lists the connections whose `close()` was invoked. -/
def closePeer (st : MeshState) : MeshState × List Nat :=
  let closed := st.connections.map (fun c => c.2.cid)
  let st1 := { st with connections := ([] : List (String × Conn)) }
  match st.peer with
  | some _ => ({ st1 with peer := none, id := none }, closed)
  | none => (st1, closed)

/-- `isPeerOpen`: `!!this.peer && !this.peer.disconnected`. -/
def isPeerOpen (st : MeshState) : Bool :=
  match st.peer with
  | some p => !p.disconnected
  | none => false

/-- Marks the connection registered under `rid` as no longer open (the effect
of calling `close()` on the stored `DataConnection` object). -/
def closeConnEntry (conns : List (String × Conn)) (rid : String) :
    List (String × Conn) :=
  conns.map (fun p => if p.1 == rid then (p.1, { p.2 with opn := false }) else p)

/-- `closeDataConnection`: looks the connection up and calls `close()` on it
when it is open.  Nothing is ever removed from `this.connections`.  The second
component lists the `close()` calls made. -/
def closeDataConnection (st : MeshState) (remoteID : String) :
    MeshState × List Nat :=
  match connectionsGet st.connections remoteID with
  | none => (st, [])
  | some c =>
    if c.opn then
      ({ st with connections := closeConnEntry st.connections remoteID }, [c.cid])
    else (st, [])

/-! ## The identity codec

`encodeToPeerID` / `decodeFromPeerID` from the top of `mesh.js`, together
with the browser built-ins they call.  Strings are `List Char` (Unicode
scalar values); the intermediate "binary string" consumed by `btoa` and
produced by `atob` is a `List Nat` of byte values. -/

/-- `f a₀ ++ f a₁ ++ ⋯` (explicit recursion keeps induction proofs direct). -/
def concatMap (f : α → List β) : List α → List β
  | [] => []
  | a :: as => f a ++ concatMap f as

/-- The base64 alphabet used by `btoa`. -/
def b64alpha : List Char :=
  ['A', 'B', 'C', 'D', 'E', 'F', 'G', 'H', 'I', 'J', 'K', 'L', 'M',
   'N', 'O', 'P', 'Q', 'R', 'S', 'T', 'U', 'V', 'W', 'X', 'Y', 'Z',
   'a', 'b', 'c', 'd', 'e', 'f', 'g', 'h', 'i', 'j', 'k', 'l', 'm',
   'n', 'o', 'p', 'q', 'r', 's', 't', 'u', 'v', 'w', 'x', 'y', 'z',
   '0', '1', '2', '3', '4', '5', '6', '7', '8', '9', '+', '/']

/-- The base64 digit for a 6-bit value. -/
def b64c (n : Nat) : Char := b64alpha.getD n 'A'

/-- The 6-bit value of a base64 digit (`none` for a non-alphabet char). -/
def b64v (c : Char) : Option Nat :=
  let i := b64alpha.indexOf c
  if i < 64 then some i else none

/-- `btoa`: base64 of a byte sequence, with `=` padding. -/
def btoa : List Nat → List Char
  | [] => []
  | [b0] => [b64c (b0 / 4), b64c (b0 % 4 * 16), '=', '=']
  | [b0, b1] => [b64c (b0 / 4), b64c (b0 % 4 * 16 + b1 / 16), b64c (b1 % 16 * 4), '=']
  | b0 :: b1 :: b2 :: rest =>
    b64c (b0 / 4) :: b64c (b0 % 4 * 16 + b1 / 16) ::
      b64c (b1 % 16 * 4 + b2 / 64) :: b64c (b2 % 64) :: btoa rest

/-- The base64 digits of `btoa` without the `=` padding. -/
def b64core : List Nat → List Char
  | [] => []
  | [b0] => [b64c (b0 / 4), b64c (b0 % 4 * 16)]
  | [b0, b1] => [b64c (b0 / 4), b64c (b0 % 4 * 16 + b1 / 16), b64c (b1 % 16 * 4)]
  | b0 :: b1 :: b2 :: rest =>
    b64c (b0 / 4) :: b64c (b0 % 4 * 16 + b1 / 16) ::
      b64c (b1 % 16 * 4 + b2 / 64) :: b64c (b2 % 64) :: b64core rest

/-- How many `=` padding chars `btoa` appends. -/
def padCount (bs : List Nat) : Nat :=
  match bs.length % 3 with
  | 0 => 0
  | 1 => 2
  | _ => 1

/-- `atob`: strict base64 decoding (padding only in the final quartet). -/
def atob : List Char → Option (List Nat)
  | [] => some []
  | c0 :: c1 :: c2 :: c3 :: rest =>
    if c2 = '=' then
      if c3 = '=' ∧ rest = [] then
        match b64v c0, b64v c1 with
        | some v0, some v1 => some [v0 * 4 + v1 / 16]
        | _, _ => none
      else none
    else if c3 = '=' then
      if rest = [] then
        match b64v c0, b64v c1, b64v c2 with
        | some v0, some v1, some v2 =>
          some [v0 * 4 + v1 / 16, v1 % 16 * 16 + v2 / 4]
        | _, _, _ => none
      else none
    else
      match b64v c0, b64v c1, b64v c2, b64v c3, atob rest with
      | some v0, some v1, some v2, some v3, some bs =>
        some ((v0 * 4 + v1 / 16) :: (v1 % 16 * 16 + v2 / 4) :: (v2 % 4 * 64 + v3) :: bs)
      | _, _, _, _, _ => none
  | _ => none

/-- Code points of `- _ . ! ~ * ' ( )`, the non-alphanumeric characters
`encodeURIComponent` leaves unescaped. -/
def uriMarkCodes : List Nat := [45, 95, 46, 33, 126, 42, 39, 40, 41]

/-- Does `encodeURIComponent` leave the character unescaped? -/
def uriUnreserved (c : Char) : Bool :=
  decide ((65 ≤ c.toNat ∧ c.toNat ≤ 90) ∨ (97 ≤ c.toNat ∧ c.toNat ≤ 122) ∨
    (48 ≤ c.toNat ∧ c.toNat ≤ 57) ∨ c.toNat ∈ uriMarkCodes)

/-- The UTF-8 encoding of one Unicode scalar value. -/
def utf8Bytes (c : Char) : List Nat :=
  let n := c.toNat
  if n < 128 then [n]
  else if n < 2048 then [192 + n / 64, 128 + n % 64]
  else if n < 65536 then [224 + n / 4096, 128 + n / 64 % 64, 128 + n % 64]
  else [240 + n / 262144, 128 + n / 4096 % 64, 128 + n / 64 % 64, 128 + n % 64]

/-- The byte of an uppercase hexadecimal digit (value `< 16`). -/
def hexDigitByte (n : Nat) : Nat :=
  if n < 10 then 48 + n else 55 + n

/-- `%XX` percent-escape of one byte, as bytes. -/
def escByte (b : Nat) : List Nat := [37, hexDigitByte (b / 16), hexDigitByte (b % 16)]

/-- `encodeURIComponent` on one character: kept verbatim if unreserved,
otherwise each UTF-8 byte is percent-escaped. -/
def encURIChar (c : Char) : List Nat :=
  if uriUnreserved c then [c.toNat] else concatMap escByte (utf8Bytes c)

/-- `encodeURIComponent`, producing the ASCII bytes of the escaped string. -/
def encodeURIComponent (s : List Char) : List Nat :=
  concatMap encURIChar s

/-- Value of a hexadecimal digit byte (either case). -/
def unhex (b : Nat) : Option Nat :=
  if 48 ≤ b ∧ b ≤ 57 then some (b - 48)
  else if 65 ≤ b ∧ b ≤ 70 then some (b - 55)
  else if 97 ≤ b ∧ b ≤ 102 then some (b - 87)
  else none

/-- Percent-decoding pass of `decodeURIComponent`: each `%XX` becomes the
byte `XX`, other bytes pass through; malformed escapes fail. -/
def pctDecode : List Nat → Option (List Nat)
  | [] => some []
  | b :: rest =>
    if b = 37 then
      match rest with
      | h :: l :: r2 =>
        match unhex h, unhex l, pctDecode r2 with
        | some hv, some lv, some r => some ((hv * 16 + lv) :: r)
        | _, _, _ => none
      | _ => none
    else
      match pctDecode rest with
      | some r => some (b :: r)
      | none => none

/-- Decodes one UTF-8 scalar from the front of a byte sequence, returning the
character and the remaining bytes (strict: rejects truncated sequences,
overlong forms, surrogates and out-of-range values). -/
def utf8DecodeOne : List Nat → Option (Char × List Nat) := fun l =>
  match l with
  | [] => none
  | b :: rest =>
    if b < 128 then some (Char.ofNat b, rest)
    else if b < 194 then none
    else if b < 224 then
      match rest with
      | b1 :: r =>
        if 128 ≤ b1 ∧ b1 < 192 then
          some (Char.ofNat ((b - 192) * 64 + (b1 - 128)), r)
        else none
      | [] => none
    else if b < 240 then
      match rest with
      | b1 :: b2 :: r =>
        if (128 ≤ b1 ∧ b1 < 192) ∧ (128 ≤ b2 ∧ b2 < 192) then
          let n := (b - 224) * 4096 + (b1 - 128) * 64 + (b2 - 128)
          if 2048 ≤ n ∧ ¬ (55296 ≤ n ∧ n < 57344) then some (Char.ofNat n, r)
          else none
        else none
      | _ => none
    else if b < 245 then
      match rest with
      | b1 :: b2 :: b3 :: r =>
        if (128 ≤ b1 ∧ b1 < 192) ∧ (128 ≤ b2 ∧ b2 < 192) ∧ (128 ≤ b3 ∧ b3 < 192) then
          let n := (b - 240) * 262144 + (b1 - 128) * 4096 + (b2 - 128) * 64 + (b3 - 128)
          if 65536 ≤ n ∧ n < 1114112 then some (Char.ofNat n, r)
          else none
        else none
      | _ => none
    else none

/-- Strict UTF-8 decoding of a whole byte sequence, scalar by scalar.  Fuel
keeps the recursion structural; each scalar consumes at least one byte, so
fuel equal to the byte count always suffices. -/
def utf8DecodeFuel : Nat → List Nat → Option (List Char)
  | _, [] => some []
  | 0, _ :: _ => none
  | f + 1, b :: rest =>
    match utf8DecodeOne (b :: rest) with
    | some (c, r) =>
      match utf8DecodeFuel f r with
      | some cs => some (c :: cs)
      | none => none
    | none => none

/-- Strict UTF-8 decoding of a byte sequence. -/
def utf8Decode (l : List Nat) : Option (List Char) :=
  utf8DecodeFuel l.length l

/-- `decodeURIComponent` on the ASCII bytes of a string: percent-decode,
then UTF-8 decode. -/
def decodeURIBytes (bs : List Nat) : Option (List Char) :=
  match pctDecode bs with
  | some b2 => utf8Decode b2
  | none => none

/-- The replacement text `0equal0` substituted for `=`. -/
def patEqual : List Char := ['0', 'e', 'q', 'u', 'a', 'l', '0']

/-- `.replace(/[=]/g, '0equal0')`: character-wise global substitution. -/
def jsReplaceEq (l : List Char) : List Char :=
  concatMap (fun c => if c = '=' then patEqual else [c]) l

/-- One scanning pass of `.replace(/0equal0/g, '=')`, with explicit fuel so
that the definition is structural (fuel `≥` length always suffices: each step
consumes at least one character). -/
def replaceEqualFuel : Nat → List Char → List Char
  | 0, l => l
  | _ + 1, [] => []
  | f + 1, c :: rest =>
    if patEqual.isPrefixOf (c :: rest) then
      '=' :: replaceEqualFuel f ((c :: rest).drop 7)
    else c :: replaceEqualFuel f rest

/-- `.replace(/0equal0/g, '=')`: left-to-right, non-overlapping. -/
def replaceEqual (l : List Char) : List Char :=
  replaceEqualFuel l.length l

/-- `k` copies of the replacement text. -/
def patRep : Nat → List Char
  | 0 => []
  | k + 1 => patEqual ++ patRep k

/-- `encodeToPeerID`: `` `0${btoa(encodeURIComponent(meshID))}0` `` with every
`=` replaced by `0equal0`. -/
def encodeToPeerID (meshID : List Char) : List Char :=
  jsReplaceEq ('0' :: btoa (encodeURIComponent meshID) ++ ['0'])

/-- `decodeFromPeerID`:
`decodeURIComponent(atob(peerID.slice(1, -1).replace(/0equal0/g, '=')))`,
`none` when a built-in would throw. -/
def decodeFromPeerID (peerID : List Char) : Option (List Char) :=
  match atob (replaceEqual ((peerID.drop 1).dropLast)) with
  | some bs => decodeURIBytes bs
  | none => none

/-- `encodeToPeerID` at `String` type. -/
def encodeToPeerIDStr (s : String) : String :=
  String.mk (encodeToPeerID s.data)

/-- `decodeFromPeerID` at `String` type. -/
def decodeFromPeerIDStr (s : String) : Option String :=
  (decodeFromPeerID s.data).map String.mk

/-! ## Connection and peer opening -/

/-- The immediate outcome of `openDataConnection`: a synchronous throw, a
rejected promise, resolution with an already-open connection, or the start of
a new outbound connection (the transport is dialled with
`encodeToPeerIDStr remoteID`; the handshake then runs asynchronously). -/
inductive ConnectResult
  | errPeerNotInitialized
  | errRemoteIDNotSet
  | resolveExisting (c : Conn)
  | attemptNew (peerID : String)
deriving DecidableEq, Repr

/-- The synchronous part of `openDataConnection`.  It assigns no instance
field: registration happens only later, inside the async handshake handler. -/
def openDataConnection (st : MeshState) (remoteID : String) : ConnectResult :=
  match st.peer with
  | none => ConnectResult.errPeerNotInitialized
  | some _ =>
    if remoteID = "" then ConnectResult.errRemoteIDNotSet
    else
      match connectionsGet st.connections remoteID with
      | some c =>
        if c.opn then ConnectResult.resolveExisting c
        else ConnectResult.attemptNew (encodeToPeerIDStr remoteID)
      | none => ConnectResult.attemptNew (encodeToPeerIDStr remoteID)

/-- Whether the transport accepts the requested identity (the `open` vs
`error` event of the freshly constructed `Peer`). -/
inductive OpenOutcome
  | accepted
  | rejected
deriving DecidableEq, Repr

/-- How `openPeer`'s promise settles. -/
inductive OpenResult
  | resolvedExisting
  | resolvedNew
  | rejectedErr
deriving DecidableEq, Repr

/-- `openPeer`: an empty local ID gets a random `mesh-` suffix (`rnd` models
the random part); if a peer exists with the same ID and a connected transport
the promise resolves with it untouched; otherwise any old peer is closed, a
new one is constructed, and on `open` the node's ID is set to the decoded
transport ID while on `error` the node is closed and the promise rejects. -/
def openPeer (st : MeshState) (localID0 rnd : String) (outcome : OpenOutcome) :
    MeshState × OpenResult :=
  let localID := if localID0 = "" then "mesh-" ++ rnd else localID0
  let go : MeshState → MeshState × OpenResult := fun s =>
    let s1 := { s with peer := some { disconnected := false } }
    match outcome with
    | OpenOutcome.accepted =>
      ({ s1 with id := decodeFromPeerIDStr (encodeToPeerIDStr localID) },
        OpenResult.resolvedNew)
    | OpenOutcome.rejected => ((closePeer s1).1, OpenResult.rejectedErr)
  match st.peer with
  | some p =>
    if st.id = some localID ∧ p.disconnected = false then
      (st, OpenResult.resolvedExisting)
    else go (closePeer st).1
  | none => go st

/-! ## Example states used by witnesses and counterexamples -/

/-- A node with two open connections and one shared variable. -/
def exVarState : MeshState :=
  { initMesh with
    peer := some { disconnected := false }
    id := some "a"
    connections := [("b", { cid := 1, opn := true }), ("c", { cid := 2, opn := true })]
    sharedVars := [("x", JSVal.str "0")] }

/-- An event envelope from peer `a`. -/
def exEventA : EventEnv :=
  { sender := some "a", time := 1, jsType := "event"
    eventType := "move", eventData := JSVal.str "left" }

/-- A different event envelope, from peer `b`. -/
def exEventB : EventEnv :=
  { sender := some "b", time := 2, jsType := "event"
    eventType := "jump", eventData := JSVal.str "up" }

/-- A node whose de-dup buffer already holds `exEventA` (and one other event)
and which has two open connections. -/
def exDupState : MeshState :=
  { initMesh with
    peer := some { disconnected := false }
    id := some "me"
    connections := [("p", { cid := 1, opn := true }), ("q", { cid := 2, opn := true })]
    sharedEventBuffer := [exEventA, exEventB] }

/-- A node with one registered connection, as it stands when a handshake
merge runs for a second, still unregistered connection. -/
def exMergeState : MeshState :=
  { initMesh with
    peer := some { disconnected := false }
    id := some "a"
    connections := [("c", { cid := 7, opn := true })] }

/-- A node with one open registered connection. -/
def exOneConnState : MeshState :=
  { initMesh with
    peer := some { disconnected := false }
    id := some "a"
    connections := [("b", { cid := 1, opn := true })]
    sharedVars := [("k", JSVal.str "v")] }

/-- A node whose peer handle exists but whose transport is disconnected. -/
def exDisconnectedState : MeshState :=
  { initMesh with
    peer := some { disconnected := true }
    id := some "a" }

/-! ## Helper lemmas -/

theorem mem_concatMap {f : α → List β} {b : β} :
    ∀ {l : List α}, b ∈ concatMap f l ↔ ∃ a ∈ l, b ∈ f a := by
  intro l
  induction l with
  | nil => simp [concatMap]
  | cons a as ih => simp [concatMap, ih]

theorem concatMap_append (f : α → List β) (l₁ l₂ : List α) :
    concatMap f (l₁ ++ l₂) = concatMap f l₁ ++ concatMap f l₂ := by
  induction l₁ with
  | nil => simp [concatMap]
  | cons a as ih => simp [concatMap, ih]

theorem tail_append_singleton {l : List α} (a : α) (h : l ≠ []) :
    (l ++ [a]).tail = l.tail ++ [a] := by
  cases l with
  | nil => exact absurd rfl h
  | cons x xs => rfl

theorem onSharedEvent_length_le (st : MeshState) (e : EventEnv)
    (h : st.sharedEventBuffer.length ≤ st.sharedEventBufferLength) :
    (onSharedEvent st e).sharedEventBuffer.length ≤ st.sharedEventBufferLength := by
  unfold onSharedEvent
  by_cases hl : (st.sharedEventBuffer ++ [e]).length > st.sharedEventBufferLength
  · simp only [hl, if_pos]
    simp only [List.length_tail, List.length_append, List.length_singleton]
    omega
  · simp only [hl, if_neg, not_false_iff]
    simp only [List.length_append, List.length_singleton]
    simp only [List.length_append, List.length_singleton, gt_iff_lt, not_lt] at hl
    omega

theorem onSharedEvent_cap_eq (st : MeshState) (e : EventEnv) :
    (onSharedEvent st e).sharedEventBufferLength = st.sharedEventBufferLength := by
  simp only [onSharedEvent]
  split <;> rfl

theorem handleData_buffer_length_le (st : MeshState) (srcCid : Nat) (d : Envelope)
    (h : st.sharedEventBuffer.length ≤ st.sharedEventBufferLength) :
    (handleData st srcCid d).1.sharedEventBuffer.length ≤ st.sharedEventBufferLength := by
  match d with
  | Envelope.varMsg sender time key value =>
    unfold handleData
    by_cases hv : mapGet st.sharedVars key ≠ value <;> simp [hv, h]
  | Envelope.eventMsg e =>
    unfold handleData
    by_cases hs : e.sender = st.id
    · simp [hs, h]
    · by_cases hr : receivedCheck st.sharedEventBuffer e
      · simp [hs, hr, h]
      · simp [hs, hr]
        exact onSharedEvent_length_le st e h
  | Envelope.syncRequest sender time vars => simpa [handleData] using h
  | Envelope.syncAnswer sender time vars => simpa [handleData] using h

theorem handleData_cap_eq (st : MeshState) (srcCid : Nat) (d : Envelope) :
    (handleData st srcCid d).1.sharedEventBufferLength = st.sharedEventBufferLength := by
  match d with
  | Envelope.varMsg sender time key value =>
    unfold handleData
    by_cases hv : mapGet st.sharedVars key ≠ value <;> simp [hv]
  | Envelope.eventMsg e =>
    unfold handleData
    by_cases hs : e.sender = st.id
    · simp [hs]
    · by_cases hr : receivedCheck st.sharedEventBuffer e
      · simp [hs, hr]
      · simp [hs, hr, onSharedEvent_cap_eq]
  | Envelope.syncRequest sender time vars => simp [handleData]
  | Envelope.syncAnswer sender time vars => simp [handleData]

/-! ## Claim theorems (excepting the codec round trip, proved at the end) -/

/-- C1: an incoming `var` envelope whose value differs from the stored one is
applied to the store and relayed to every registered connection except the one
it arrived on; an envelope whose value is already stored changes nothing and
sends nothing (state, buffer and hence listener-visible data all untouched). -/
theorem varUpdate_spec (st : MeshState) (srcCid : Nat) (sender : Option String)
    (time : Nat) (key : String) (value : JSVal) :
    (mapGet st.sharedVars key ≠ value →
      handleData st srcCid (Envelope.varMsg sender time key value) =
        ({ st with sharedVars := mapSet st.sharedVars key value },
          (st.connections.filter (fun c => c.2.cid ≠ srcCid)).map
            (fun c => (c.2.cid, Envelope.varMsg sender time key value)))) ∧
    (mapGet st.sharedVars key = value →
      handleData st srcCid (Envelope.varMsg sender time key value) = (st, [])) := by
  constructor
  · intro h
    simp [handleData, h]
  · intro h
    simp [handleData, h]

theorem varUpdate_spec_witness :
    mapGet exVarState.sharedVars "x" ≠ JSVal.str "1" ∧
    handleData exVarState 1 (Envelope.varMsg (some "b") 5 "x" (JSVal.str "1")) =
      ({ exVarState with sharedVars := mapSet exVarState.sharedVars "x" (JSVal.str "1") },
        (exVarState.connections.filter (fun c => c.2.cid ≠ 1)).map
          (fun c => (c.2.cid, Envelope.varMsg (some "b") 5 "x" (JSVal.str "1")))) :=
  ⟨by decide, (varUpdate_spec exVarState 1 (some "b") 5 "x" (JSVal.str "1")).1 (by decide)⟩

/-- C2: the claim says a duplicate `event` envelope (same sender and time as a
buffered one) is dropped silently.  The code instead tests the buffer with
`every`, so a duplicate is dropped only when the *entire* buffer consists of
copies of it: here `exEventA` is already buffered, yet the node relays it
again to connection 2 and appends it to the buffer a second time. -/
theorem duplicateEvent_redelivered :
    exEventA ∈ exDupState.sharedEventBuffer ∧
    handleData exDupState 1 (Envelope.eventMsg exEventA) =
      ({ exDupState with sharedEventBuffer := [exEventA, exEventB, exEventA] },
        [(2, Envelope.eventMsg exEventA)]) := by
  decide

/-- C4: the event buffer is bounded by `sharedEventBufferLength`, which the
constructor sets to `10`; recording via `onSharedEvent` evicts the oldest
(head) entry when the capacity would be exceeded, and every operation that
touches the buffer (`onSharedEvent`, the `data` handler, `dispatchSharedEvent`,
`nextSharedEvent`) preserves the bound and the capacity. -/
theorem eventBuffer_bounded (st : MeshState) (e : EventEnv) (srcCid : Nat)
    (d : Envelope) (etype : String) (edata : JSVal) (now : Nat) :
    initMesh.sharedEventBufferLength = 10 ∧
    (st.sharedEventBuffer.length ≤ st.sharedEventBufferLength →
      (onSharedEvent st e).sharedEventBuffer.length ≤ st.sharedEventBufferLength) ∧
    (onSharedEvent st e).sharedEventBufferLength = st.sharedEventBufferLength ∧
    (st.sharedEventBuffer.length = st.sharedEventBufferLength →
      st.sharedEventBuffer ≠ [] →
      (onSharedEvent st e).sharedEventBuffer = st.sharedEventBuffer.tail ++ [e]) ∧
    (nextSharedEvent st).1.sharedEventBuffer = st.sharedEventBuffer ∧
    (nextSharedEvent st).1.sharedEventBufferLength = st.sharedEventBufferLength ∧
    (st.sharedEventBuffer.length ≤ st.sharedEventBufferLength →
      (handleData st srcCid d).1.sharedEventBuffer.length ≤ st.sharedEventBufferLength) ∧
    (handleData st srcCid d).1.sharedEventBufferLength = st.sharedEventBufferLength ∧
    (st.sharedEventBuffer.length ≤ st.sharedEventBufferLength →
      (dispatchSharedEvent st etype edata now).1.sharedEventBuffer.length ≤
        st.sharedEventBufferLength) ∧
    (dispatchSharedEvent st etype edata now).1.sharedEventBufferLength =
      st.sharedEventBufferLength := by
  refine ⟨rfl, onSharedEvent_length_le st e, onSharedEvent_cap_eq st e, ?_, ?_, ?_,
    handleData_buffer_length_le st srcCid d, handleData_cap_eq st srcCid d,
    onSharedEvent_length_le st _, onSharedEvent_cap_eq st _⟩
  · intro hfull hne
    simp only [onSharedEvent]
    split
    · exact tail_append_singleton e hne
    · next h2 =>
      exfalso
      simp only [List.length_append, List.length_singleton, gt_iff_lt, not_lt] at h2
      omega
  · unfold nextSharedEvent
    by_cases hl : st.sharedEventBuffer.length ≤ st.sharedEventIndex <;> simp [hl]
  · unfold nextSharedEvent
    by_cases hl : st.sharedEventBuffer.length ≤ st.sharedEventIndex <;> simp [hl]

theorem eventBuffer_bounded_witness :
    exDupState.sharedEventBuffer.length ≤ exDupState.sharedEventBufferLength ∧
    (onSharedEvent exDupState exEventA).sharedEventBuffer.length ≤
      exDupState.sharedEventBufferLength :=
  ⟨by decide,
    (eventBuffer_bounded exDupState exEventA 1 (Envelope.eventMsg exEventA) "t"
      (JSVal.str "d") 3).2.1 (by decide)⟩

/-- C5: the claim says `closeDataConnection` removes the Link from the
registry, decreasing the connection count by one.  The code calls `close()` on
the connection but never deletes the registry entry (contradicting its own
doc comment "Disconnect and remove a data connection"): the count stays `1`
and the entry remains, merely marked no longer open.  The absent-identity
no-op half does hold. -/
theorem closeDataConnection_keeps_registry :
    dataConnectionCount exOneConnState = 1 ∧
    (closeDataConnection exOneConnState "b").2 = [1] ∧
    dataConnectionCount (closeDataConnection exOneConnState "b").1 = 1 ∧
    connectionsGet (closeDataConnection exOneConnState "b").1.connections "b" =
      some { cid := 1, opn := false } ∧
    closeDataConnection exOneConnState "nobody" = (exOneConnState, []) := by
  decide

/-- C6: `closePeer` calls `close()` on every registered connection, clears the
registry, drops the peer handle and the local identity, and leaves the shared
variables (and the event buffer) untouched; on an already-closed node it is a
no-op.  (A closed node has no identity: `openPeer` only assigns `this.id`
while a peer handle exists, so the hypothesis holds for every reachable
state.) -/
theorem closePeer_spec (st : MeshState) (h : st.peer = none → st.id = none) :
    (closePeer st).1.connections = [] ∧
    (closePeer st).1.peer = none ∧
    (closePeer st).1.id = none ∧
    (closePeer st).1.sharedVars = st.sharedVars ∧
    (closePeer st).1.sharedEventBuffer = st.sharedEventBuffer ∧
    (closePeer st).2 = st.connections.map (fun c => c.2.cid) ∧
    (st.peer = none → st.connections = [] → (closePeer st).1 = st) := by
  cases hp : st.peer with
  | some p =>
    refine ⟨by simp [closePeer, hp], by simp [closePeer, hp], by simp [closePeer, hp],
      by simp [closePeer, hp], by simp [closePeer, hp], by simp [closePeer, hp], ?_⟩
    intro h0 _
    simp at h0
  | none =>
    refine ⟨by simp [closePeer, hp], by simp [closePeer, hp], ?_,
      by simp [closePeer, hp], by simp [closePeer, hp], by simp [closePeer, hp], ?_⟩
    · simpa [closePeer, hp] using h hp
    · intro _ hc
      cases st
      simp_all [closePeer]

theorem closePeer_spec_witness :
    (closePeer exOneConnState).1.connections = [] ∧
    (closePeer exOneConnState).1.peer = none ∧
    (closePeer exOneConnState).1.id = none ∧
    (closePeer exOneConnState).1.sharedVars = exOneConnState.sharedVars ∧
    (closePeer exOneConnState).1.sharedEventBuffer = exOneConnState.sharedEventBuffer ∧
    (closePeer exOneConnState).2 = exOneConnState.connections.map (fun c => c.2.cid) ∧
    (exOneConnState.peer = none → exOneConnState.connections = [] →
      (closePeer exOneConnState).1 = exOneConnState) :=
  closePeer_spec exOneConnState (by decide)

/-- C10: an incoming `event` envelope whose sender equals the node's own
identity is ignored entirely — no buffer change, no relay — regardless of the
buffer contents. -/
theorem ownEvent_ignored (st : MeshState) (srcCid : Nat) (e : EventEnv)
    (h : e.sender = st.id) :
    handleData st srcCid (Envelope.eventMsg e) = (st, []) := by
  simp [handleData, h]

theorem ownEvent_ignored_witness :
    ({ exEventA with sender := some "me" } : EventEnv).sender = exDupState.id ∧
    handleData exDupState 1 (Envelope.eventMsg { exEventA with sender := some "me" }) =
      (exDupState, []) :=
  ⟨by decide, ownEvent_ignored exDupState 1 _ (by decide)⟩

/-- C3 (counterexample): during the handshake merge, the pair `("x","1")` is
merged while connection `7` is already registered, and a `var` envelope IS
sent to it — contradicting "no var-update message is sent to any other
connection as a result of that merge". -/
theorem handshakeMerge_rebroadcast_cex :
    exMergeState.connections ≠ [] ∧
    (mergeVars exMergeState 5 [("x", JSVal.str "1")]).2 =
      [(7, Envelope.varMsg (some "a") 5 "x" (JSVal.str "1"))] ∧
    (mergeVars exMergeState 5 [("x", JSVal.str "1")]).2 ≠ [] := by
  decide

/-- C3 (amended): the handshake merge applies every pair by unconditional
overwrite (last writer wins), and — because it reuses `setSharedVar` — sends a
`var` envelope for every merged pair to every connection registered at that
moment; the handshaking connection itself is not yet registered, so no message
is addressed to it or to any other unregistered connection. -/
theorem mergeVars_spec (st : MeshState) (now : Nat) (vars : List (String × JSVal)) :
    (mergeVars st now vars).1 =
      { st with sharedVars :=
          vars.foldl (fun m kv => mapSet m kv.1 kv.2) st.sharedVars } ∧
    (mergeVars st now vars).2 =
      concatMap (fun kv => st.connections.map
        (fun c => (c.2.cid, Envelope.varMsg st.id now kv.1 kv.2))) vars ∧
    ∀ cid, (∀ p ∈ st.connections, p.2.cid ≠ cid) →
      ∀ m ∈ (mergeVars st now vars).2, m.1 ≠ cid := by
  have main : ∀ (vs : List (String × JSVal)) (s : MeshState),
      (mergeVars s now vs).1 =
        { s with sharedVars := vs.foldl (fun m kv => mapSet m kv.1 kv.2) s.sharedVars } ∧
      (mergeVars s now vs).2 =
        concatMap (fun kv => s.connections.map
          (fun c => (c.2.cid, Envelope.varMsg s.id now kv.1 kv.2))) vs := by
    intro vs
    induction vs with
    | nil => intro s; exact ⟨rfl, rfl⟩
    | cons kv rest ih =>
      intro s
      obtain ⟨k, v⟩ := kv
      constructor
      · show (mergeVars (setSharedVar s k v now).1 now rest).1 = _
        rw [(ih _).1]
        rfl
      · show (setSharedVar s k v now).2 ++ (mergeVars (setSharedVar s k v now).1 now rest).2 = _
        rw [(ih _).2]
        rfl
  refine ⟨(main vars st).1, (main vars st).2, ?_⟩
  intro cid hnone m hm
  rw [(main vars st).2] at hm
  rcases mem_concatMap.mp hm with ⟨kv, _, hmem⟩
  rcases List.mem_map.mp hmem with ⟨c, hc, hmc⟩
  have := hnone c hc
  intro hmcid
  apply this
  rw [← hmcid, ← hmc]

theorem mergeVars_spec_witness :
    (∀ p ∈ exMergeState.connections, p.2.cid ≠ 99) ∧
    ∀ m ∈ (mergeVars exMergeState 5 [("x", JSVal.str "1")]).2, m.1 ≠ 99 :=
  ⟨by decide,
    (mergeVars_spec exMergeState 5 [("x", JSVal.str "1")]).2.2 99 (by decide)⟩

/-- C7 (counterexample): a node whose peer handle exists but whose transport
is disconnected is not open (`isPeerOpen` is `false`), yet
`openDataConnection` does not fail: it dials a new connection. -/
theorem openDataConnection_notOpen_cex :
    isPeerOpen exDisconnectedState = false ∧
    openDataConnection exDisconnectedState "b" =
      ConnectResult.attemptNew (encodeToPeerIDStr "b") ∧
    openDataConnection exDisconnectedState "b" ≠ ConnectResult.errPeerNotInitialized ∧
    openDataConnection exDisconnectedState "b" ≠ ConnectResult.errRemoteIDNotSet := by
  decide

/-- C7 (amended): `openDataConnection` fails immediately when the peer handle
is absent (node never opened, or fully closed) — a synchronous throw — or when
the remote identity is empty — a rejected promise; it assigns no state in any
branch (the embedding is a pure function of the state); and when the registry
already holds an open connection for the identity, that connection is
returned.  A node with a peer handle whose transport is merely disconnected
does not fail immediately. -/
theorem openDataConnection_spec (st : MeshState) (rid : String) :
    (st.peer = none → openDataConnection st rid = ConnectResult.errPeerNotInitialized) ∧
    (st.peer ≠ none → rid = "" →
      openDataConnection st rid = ConnectResult.errRemoteIDNotSet) ∧
    (∀ c, st.peer ≠ none → rid ≠ "" → connectionsGet st.connections rid = some c →
      c.opn = true → openDataConnection st rid = ConnectResult.resolveExisting c) := by
  refine ⟨?_, ?_, ?_⟩
  · intro h
    simp [openDataConnection, h]
  · intro h he
    cases hp : st.peer with
    | none => exact absurd hp h
    | some p => simp [openDataConnection, hp, he]
  · intro c h hr hc ho
    cases hp : st.peer with
    | none => exact absurd hp h
    | some p => simp [openDataConnection, hp, hr, hc, ho]

theorem openDataConnection_spec_witness :
    openDataConnection initMesh "b" = ConnectResult.errPeerNotInitialized ∧
    openDataConnection exVarState "" = ConnectResult.errRemoteIDNotSet ∧
    openDataConnection exVarState "b" =
      ConnectResult.resolveExisting { cid := 1, opn := true } :=
  ⟨(openDataConnection_spec initMesh "b").1 (by decide),
    (openDataConnection_spec exVarState "").2.1 (by decide) rfl,
    (openDataConnection_spec exVarState "b").2.2 { cid := 1, opn := true }
      (by decide) (by decide) (by decide) rfl⟩

/-- C8: calling `openPeer` while already open under the same (non-empty)
identity with a connected transport is a no-op resolving with the existing
peer; and whenever the open is actually attempted and the transport rejects
the identity, the node reverts to the closed state — no peer handle, no
identity, empty registry — with the shared variables untouched, and the
promise rejects. -/
theorem openPeer_spec (st : MeshState) (lid rnd : String) (outcome : OpenOutcome) :
    (∀ p, st.peer = some p → p.disconnected = false → st.id = some lid → lid ≠ "" →
      openPeer st lid rnd outcome = (st, OpenResult.resolvedExisting)) ∧
    ((∀ p, st.peer = some p →
        ¬ (st.id = some (if lid = "" then "mesh-" ++ rnd else lid) ∧
           p.disconnected = false)) →
      (openPeer st lid rnd OpenOutcome.rejected).1.peer = none ∧
      (openPeer st lid rnd OpenOutcome.rejected).1.id = none ∧
      (openPeer st lid rnd OpenOutcome.rejected).1.connections = [] ∧
      (openPeer st lid rnd OpenOutcome.rejected).1.sharedVars = st.sharedVars ∧
      (openPeer st lid rnd OpenOutcome.rejected).2 = OpenResult.rejectedErr) := by
  constructor
  · intro p hp hd hid hne
    simp [openPeer, hp, hne, hid, hd]
  · intro hno
    cases hp : st.peer with
    | some p =>
      have hcond := hno p hp
      simp [openPeer, hp, hcond, closePeer]
    | none =>
      simp [openPeer, hp, closePeer]

theorem openPeer_spec_witness :
    openPeer exVarState "a" "r" OpenOutcome.accepted =
      (exVarState, OpenResult.resolvedExisting) ∧
    ((openPeer exDisconnectedState "a" "r" OpenOutcome.rejected).1.peer = none ∧
      (openPeer exDisconnectedState "a" "r" OpenOutcome.rejected).1.id = none ∧
      (openPeer exDisconnectedState "a" "r" OpenOutcome.rejected).1.connections = [] ∧
      (openPeer exDisconnectedState "a" "r" OpenOutcome.rejected).1.sharedVars =
        exDisconnectedState.sharedVars ∧
      (openPeer exDisconnectedState "a" "r" OpenOutcome.rejected).2 =
        OpenResult.rejectedErr) :=
  ⟨(openPeer_spec exVarState "a" "r" OpenOutcome.accepted).1 { disconnected := false }
      rfl rfl rfl (by decide),
    (openPeer_spec exDisconnectedState "a" "r" OpenOutcome.rejected).2
      (by
        intro p hp hand
        have hp2 : some { disconnected := true } = some p := hp
        injection hp2 with h
        rw [← h] at hand
        exact absurd hand.2 (by decide))⟩

/-! ## Codec round trip: encodeURIComponent side -/

theorem char_toNat_valid (c : Char) :
    c.toNat < 55296 ∨ (57343 < c.toNat ∧ c.toNat < 1114112) := by
  have h := c.valid
  unfold UInt32.isValidChar Nat.isValidChar at h
  exact h

theorem utf8Bytes_lt_256 (c : Char) : ∀ b ∈ utf8Bytes c, b < 256 := by
  have hv := char_toNat_valid c
  intro b hb
  simp only [utf8Bytes] at hb
  by_cases h1 : c.toNat < 128
  · simp [h1] at hb
    omega
  · by_cases h2 : c.toNat < 2048
    · simp [h1, h2] at hb
      rcases hb with h | h <;> omega
    · by_cases h3 : c.toNat < 65536
      · simp [h1, h2, h3] at hb
        rcases hb with h | h | h <;> omega
      · simp [h1, h2, h3] at hb
        rcases hb with h | h | h | h <;> omega

theorem hexDigitByte_range (n : Nat) (h : n < 16) :
    33 ≤ hexDigitByte n ∧ hexDigitByte n ≤ 126 := by
  unfold hexDigitByte
  split <;> omega

theorem escByte_range (b : Nat) (hb : b < 256) :
    ∀ x ∈ escByte b, 33 ≤ x ∧ x ≤ 126 := by
  intro x hx
  have h1 := hexDigitByte_range (b / 16) (by omega)
  have h2 := hexDigitByte_range (b % 16) (by omega)
  simp [escByte] at hx
  rcases hx with h | h | h <;> subst h <;> omega

theorem uriUnreserved_range (c : Char) (h : uriUnreserved c = true) :
    33 ≤ c.toNat ∧ c.toNat ≤ 126 := by
  unfold uriUnreserved at h
  rw [decide_eq_true_iff] at h
  simp [uriMarkCodes] at h
  rcases h with h | h | h | h | h | h | h | h | h | h | h | h <;> omega

theorem encURIChar_range (c : Char) : ∀ b ∈ encURIChar c, 33 ≤ b ∧ b ≤ 126 := by
  intro b hb
  unfold encURIChar at hb
  by_cases hu : uriUnreserved c = true
  · rw [if_pos hu] at hb
    simp at hb
    subst hb
    exact uriUnreserved_range c hu
  · rw [if_neg hu] at hb
    rcases mem_concatMap.mp hb with ⟨x, hx, hbx⟩
    exact escByte_range x (utf8Bytes_lt_256 c x hx) b hbx

theorem encodeURIComponent_range (s : List Char) :
    ∀ b ∈ encodeURIComponent s, 33 ≤ b ∧ b ≤ 126 := by
  intro b hb
  rcases mem_concatMap.mp hb with ⟨c, _, hbc⟩
  exact encURIChar_range c b hbc

theorem unhex_hexDigitByte : ∀ x : Nat, x < 16 → unhex (hexDigitByte x) = some x := by
  decide

theorem pctDecode_escByte (b : Nat) (hb : b < 256) (rest : List Nat) :
    pctDecode (escByte b ++ rest) = (pctDecode rest).map (fun r => b :: r) := by
  show pctDecode (37 :: hexDigitByte (b / 16) :: hexDigitByte (b % 16) :: rest) = _
  rw [pctDecode, if_pos rfl, unhex_hexDigitByte (b / 16) (by omega),
    unhex_hexDigitByte (b % 16) (by omega)]
  have hbe : b / 16 * 16 + b % 16 = b := by omega
  cases hr : pctDecode rest <;> simp [hbe]

theorem pctDecode_plain (b : Nat) (hb : b ≠ 37) (rest : List Nat) :
    pctDecode (b :: rest) = (pctDecode rest).map (fun r => b :: r) := by
  rw [pctDecode.eq_def]
  simp only [if_neg hb]
  cases pctDecode rest <;> rfl

theorem pctDecode_concatEsc (bs : List Nat) (hr : ∀ b ∈ bs, b < 256) (rest : List Nat) :
    pctDecode (concatMap escByte bs ++ rest) = (pctDecode rest).map (fun r => bs ++ r) := by
  induction bs with
  | nil =>
    cases h : pctDecode rest <;> simp [concatMap, h]
  | cons b bs ih =>
    have hb : b < 256 := hr b (by simp)
    have ih2 := ih (fun x hx => hr x (by simp [hx]))
    rw [concatMap, List.append_assoc, pctDecode_escByte b hb, ih2]
    cases pctDecode rest <;> rfl

theorem pctDecode_encURIChar (c : Char) (rest : List Nat) :
    pctDecode (encURIChar c ++ rest) = (pctDecode rest).map (fun r => utf8Bytes c ++ r) := by
  unfold encURIChar
  by_cases hu : uriUnreserved c = true
  · rw [if_pos hu]
    have hrange := uriUnreserved_range c hu
    have hne : c.toNat ≠ 37 := by
      intro h37
      have h2 := hu
      unfold uriUnreserved at h2
      rw [decide_eq_true_iff] at h2
      simp [uriMarkCodes, h37] at h2
    show pctDecode (c.toNat :: rest) = _
    rw [pctDecode_plain c.toNat hne]
    have hb : utf8Bytes c = [c.toNat] := by
      unfold utf8Bytes
      rw [if_pos (by omega)]
    rw [hb]
    cases pctDecode rest <;> rfl
  · rw [if_neg hu]
    exact pctDecode_concatEsc (utf8Bytes c) (utf8Bytes_lt_256 c) rest

theorem pctDecode_encodeURIComponent (s : List Char) :
    pctDecode (encodeURIComponent s) = some (concatMap utf8Bytes s) := by
  induction s with
  | nil => rfl
  | cons c cs ih =>
    show pctDecode (encURIChar c ++ encodeURIComponent cs) = _
    rw [pctDecode_encURIChar, ih]
    rfl

/-! ## Codec round trip: UTF-8 -/

theorem utf8DecodeOne_bytes (c : Char) (X : List Nat) :
    utf8DecodeOne (utf8Bytes c ++ X) = some (c, X) := by
  have hv := char_toNat_valid c
  by_cases h1 : c.toNat < 128
  · have hb : utf8Bytes c = [c.toNat] := by
      unfold utf8Bytes
      rw [if_pos h1]
    rw [hb]
    show utf8DecodeOne (c.toNat :: X) = _
    simp only [utf8DecodeOne]
    rw [if_pos h1, Char.ofNat_toNat]
  · by_cases h2 : c.toNat < 2048
    · have hb : utf8Bytes c = [192 + c.toNat / 64, 128 + c.toNat % 64] := by
        unfold utf8Bytes
        rw [if_neg h1, if_pos h2]
      rw [hb]
      show utf8DecodeOne ((192 + c.toNat / 64) :: (128 + c.toNat % 64) :: X) = _
      simp only [utf8DecodeOne]
      rw [if_neg (by omega), if_neg (by omega), if_pos (by omega),
        if_pos (by omega : 128 ≤ 128 + c.toNat % 64 ∧ 128 + c.toNat % 64 < 192)]
      have harg : (192 + c.toNat / 64 - 192) * 64 + (128 + c.toNat % 64 - 128) = c.toNat := by
        omega
      rw [harg, Char.ofNat_toNat]
    · by_cases h3 : c.toNat < 65536
      · have hb : utf8Bytes c =
            [224 + c.toNat / 4096, 128 + c.toNat / 64 % 64, 128 + c.toNat % 64] := by
          unfold utf8Bytes
          rw [if_neg h1, if_neg h2, if_pos h3]
        rw [hb]
        show utf8DecodeOne ((224 + c.toNat / 4096) :: (128 + c.toNat / 64 % 64) ::
          (128 + c.toNat % 64) :: X) = _
        simp only [utf8DecodeOne]
        rw [if_neg (by omega), if_neg (by omega), if_neg (by omega), if_pos (by omega),
          if_pos (by omega :
            (128 ≤ 128 + c.toNat / 64 % 64 ∧ 128 + c.toNat / 64 % 64 < 192) ∧
            (128 ≤ 128 + c.toNat % 64 ∧ 128 + c.toNat % 64 < 192))]
        have harg : (224 + c.toNat / 4096 - 224) * 4096 +
            (128 + c.toNat / 64 % 64 - 128) * 64 + (128 + c.toNat % 64 - 128) = c.toNat := by
          omega
        simp only [harg]
        rw [if_pos (by omega : 2048 ≤ c.toNat ∧ ¬ (55296 ≤ c.toNat ∧ c.toNat < 57344)),
          Char.ofNat_toNat]
      · have hb : utf8Bytes c =
            [240 + c.toNat / 262144, 128 + c.toNat / 4096 % 64,
             128 + c.toNat / 64 % 64, 128 + c.toNat % 64] := by
          unfold utf8Bytes
          rw [if_neg h1, if_neg h2, if_neg h3]
        rw [hb]
        show utf8DecodeOne ((240 + c.toNat / 262144) :: (128 + c.toNat / 4096 % 64) ::
          (128 + c.toNat / 64 % 64) :: (128 + c.toNat % 64) :: X) = _
        simp only [utf8DecodeOne]
        rw [if_neg (by omega), if_neg (by omega), if_neg (by omega), if_neg (by omega),
          if_pos (by omega),
          if_pos (by omega :
            (128 ≤ 128 + c.toNat / 4096 % 64 ∧ 128 + c.toNat / 4096 % 64 < 192) ∧
            (128 ≤ 128 + c.toNat / 64 % 64 ∧ 128 + c.toNat / 64 % 64 < 192) ∧
            (128 ≤ 128 + c.toNat % 64 ∧ 128 + c.toNat % 64 < 192))]
        have harg : (240 + c.toNat / 262144 - 240) * 262144 +
            (128 + c.toNat / 4096 % 64 - 128) * 4096 +
            (128 + c.toNat / 64 % 64 - 128) * 64 + (128 + c.toNat % 64 - 128) = c.toNat := by
          omega
        simp only [harg]
        rw [if_pos (by omega : 65536 ≤ c.toNat ∧ c.toNat < 1114112), Char.ofNat_toNat]

theorem utf8Bytes_ne_nil (c : Char) : ∃ b bs, utf8Bytes c = b :: bs := by
  unfold utf8Bytes
  by_cases h1 : c.toNat < 128
  · rw [if_pos h1]
    exact ⟨_, _, rfl⟩
  · by_cases h2 : c.toNat < 2048
    · rw [if_neg h1, if_pos h2]
      exact ⟨_, _, rfl⟩
    · by_cases h3 : c.toNat < 65536
      · rw [if_neg h1, if_neg h2, if_pos h3]
        exact ⟨_, _, rfl⟩
      · rw [if_neg h1, if_neg h2, if_neg h3]
        exact ⟨_, _, rfl⟩

theorem utf8DecodeFuel_step (f : Nat) (c : Char) (X : List Nat) :
    utf8DecodeFuel (f + 1) (utf8Bytes c ++ X) =
      (utf8DecodeFuel f X).map (fun cs => c :: cs) := by
  obtain ⟨b, bs, hb⟩ := utf8Bytes_ne_nil c
  have hone : utf8DecodeOne (b :: (bs ++ X)) = some (c, X) := by
    rw [show b :: (bs ++ X) = utf8Bytes c ++ X by rw [hb]; rfl]
    exact utf8DecodeOne_bytes c X
  rw [hb]
  show utf8DecodeFuel (f + 1) (b :: (bs ++ X)) = _
  rw [utf8DecodeFuel, hone]
  cases hX : utf8DecodeFuel f X <;> simp [hX]

theorem length_le_concat_utf8 (s : List Char) :
    s.length ≤ (concatMap utf8Bytes s).length := by
  induction s with
  | nil => simp [concatMap]
  | cons c cs ih =>
    obtain ⟨b, bs, hb⟩ := utf8Bytes_ne_nil c
    simp only [concatMap, List.length_cons, List.length_append, hb]
    omega

theorem utf8DecodeFuel_concat (s : List Char) :
    ∀ (X : List Nat) (g : Nat),
      utf8DecodeFuel (s.length + g) (concatMap utf8Bytes s ++ X) =
        (utf8DecodeFuel g X).map (fun cs => s ++ cs) := by
  induction s with
  | nil =>
    intro X g
    simp only [concatMap, List.length_nil, Nat.zero_add, List.nil_append]
    cases utf8DecodeFuel g X <;> simp
  | cons c cs ih =>
    intro X g
    have hlen : (c :: cs).length + g = (cs.length + g) + 1 := by
      simp [List.length_cons]
      omega
    rw [hlen]
    simp only [concatMap, List.append_assoc]
    rw [utf8DecodeFuel_step, ih]
    cases utf8DecodeFuel g X <;> rfl

theorem utf8Decode_concat (s : List Char) :
    utf8Decode (concatMap utf8Bytes s) = some s := by
  unfold utf8Decode
  have hlen := length_le_concat_utf8 s
  have hsplit : (concatMap utf8Bytes s).length =
      s.length + ((concatMap utf8Bytes s).length - s.length) := by omega
  rw [hsplit]
  have h := utf8DecodeFuel_concat s [] ((concatMap utf8Bytes s).length - s.length)
  rw [List.append_nil] at h
  rw [h]
  simp [utf8DecodeFuel]

theorem decodeURIBytes_encode (s : List Char) :
    decodeURIBytes (encodeURIComponent s) = some s := by
  unfold decodeURIBytes
  rw [pctDecode_encodeURIComponent]
  exact utf8Decode_concat s

/-! ## Codec round trip: base64 -/

theorem b64v_b64c : ∀ v : Nat, v < 64 → b64v (b64c v) = some v := by
  decide

theorem b64c_ne_pad : ∀ v : Nat, v < 64 → b64c v ≠ '=' := by
  decide

theorem atob_btoa : ∀ (bs : List Nat), (∀ b ∈ bs, b < 256) → atob (btoa bs) = some bs
  | [], _ => rfl
  | [b0], hr => by
    have hb0 : b0 < 256 := hr b0 (by simp)
    show atob [b64c (b0 / 4), b64c (b0 % 4 * 16), '=', '='] = _
    rw [atob]
    rw [if_pos rfl, if_pos ⟨rfl, rfl⟩]
    rw [b64v_b64c (b0 / 4) (by omega), b64v_b64c (b0 % 4 * 16) (by omega)]
    have harith : b0 / 4 * 4 + b0 % 4 * 16 / 16 = b0 := by omega
    simp only [harith]
  | [b0, b1], hr => by
    have hb0 : b0 < 256 := hr b0 (by simp)
    have hb1 : b1 < 256 := hr b1 (by simp)
    show atob [b64c (b0 / 4), b64c (b0 % 4 * 16 + b1 / 16), b64c (b1 % 16 * 4), '='] = _
    rw [atob]
    rw [if_neg (b64c_ne_pad (b1 % 16 * 4) (by omega)), if_pos rfl, if_pos rfl]
    rw [b64v_b64c (b0 / 4) (by omega), b64v_b64c (b0 % 4 * 16 + b1 / 16) (by omega),
      b64v_b64c (b1 % 16 * 4) (by omega)]
    have h1 : b0 / 4 * 4 + (b0 % 4 * 16 + b1 / 16) / 16 = b0 := by omega
    have h2 : (b0 % 4 * 16 + b1 / 16) % 16 * 16 + b1 % 16 * 4 / 4 = b1 := by omega
    simp only [h1, h2]
  | b0 :: b1 :: b2 :: rest, hr => by
    have hb0 : b0 < 256 := hr b0 (by simp)
    have hb1 : b1 < 256 := hr b1 (by simp)
    have hb2 : b2 < 256 := hr b2 (by simp)
    have ih := atob_btoa rest (fun x hx => hr x (by simp [hx]))
    show atob (b64c (b0 / 4) :: b64c (b0 % 4 * 16 + b1 / 16) ::
      b64c (b1 % 16 * 4 + b2 / 64) :: b64c (b2 % 64) :: btoa rest) = _
    rw [atob]
    rw [if_neg (b64c_ne_pad (b1 % 16 * 4 + b2 / 64) (by omega)),
      if_neg (b64c_ne_pad (b2 % 64) (by omega))]
    rw [b64v_b64c (b0 / 4) (by omega), b64v_b64c (b0 % 4 * 16 + b1 / 16) (by omega),
      b64v_b64c (b1 % 16 * 4 + b2 / 64) (by omega), b64v_b64c (b2 % 64) (by omega), ih]
    have h1 : b0 / 4 * 4 + (b0 % 4 * 16 + b1 / 16) / 16 = b0 := by omega
    have h2 : (b0 % 4 * 16 + b1 / 16) % 16 * 16 + (b1 % 16 * 4 + b2 / 64) / 4 = b1 := by
      omega
    have h3 : (b1 % 16 * 4 + b2 / 64) % 4 * 64 + b2 % 64 = b2 := by omega
    simp only [h1, h2, h3]

theorem btoa_core_pads : ∀ bs : List Nat,
    btoa bs = b64core bs ++ List.replicate (padCount bs) '='
  | [] => rfl
  | [b0] => rfl
  | [b0, b1] => rfl
  | b0 :: b1 :: b2 :: rest => by
    have ih := btoa_core_pads rest
    have hpc : padCount (b0 :: b1 :: b2 :: rest) = padCount rest := by
      unfold padCount
      have : (b0 :: b1 :: b2 :: rest).length % 3 = rest.length % 3 := by
        simp [List.length_cons]
        omega
      rw [this]
    show btoa (b0 :: b1 :: b2 :: rest) = _
    rw [btoa, b64core, hpc, ih]
    simp [List.cons_append]

/-! ## scanner lemmas -/

theorem patPrefix_c1 {a : Char} {l : List Char}
    (h : patEqual.isPrefixOf (a :: l) = true) : a = '0' := by
  simp [patEqual, List.isPrefixOf] at h
  exact h.1.symm

theorem patPrefix_c2 {a b : Char} {l : List Char}
    (h : patEqual.isPrefixOf (a :: b :: l) = true) : b = 'e' := by
  simp [patEqual, List.isPrefixOf] at h
  exact h.2.1.symm

theorem patPrefix_c3 {a b c : Char} {l : List Char}
    (h : patEqual.isPrefixOf (a :: b :: c :: l) = true) : c = 'q' := by
  simp [patEqual, List.isPrefixOf] at h
  exact h.2.2.1.symm

theorem b64c_eq_zero : ∀ v : Nat, v < 64 → b64c v = '0' → v = 52 := by
  decide

theorem b64c_eq_e : ∀ v : Nat, v < 64 → b64c v = 'e' → v = 30 := by
  decide

theorem b64c_eq_q : ∀ v : Nat, v < 64 → b64c v = 'q' → v = 42 := by
  decide

theorem padCount_cons3 (b0 b1 b2 : Nat) (rest : List Nat) :
    padCount (b0 :: b1 :: b2 :: rest) = padCount rest := by
  unfold padCount
  have h : (b0 :: b1 :: b2 :: rest).length % 3 = rest.length % 3 := by
    simp [List.length_cons]
    omega
  rw [h]

theorem b64core_noMatch : ∀ (bs : List Nat), (∀ b ∈ bs, 33 ≤ b ∧ b ≤ 126) →
    ∀ i, i < (b64core bs).length →
    patEqual.isPrefixOf ((b64core bs ++ patRep (padCount bs)).drop i) = false
  | [], _, i, hi => by simp [b64core] at hi
  | [b0], hr, i, hi => by
    have hlen : (b64core [b0]).length = 2 := by simp [b64core]
    rw [hlen] at hi
    have hsh : b64core [b0] ++ patRep (padCount [b0]) =
        b64c (b0 / 4) :: b64c (b0 % 4 * 16) ::
          ('0' :: 'e' :: 'q' :: 'u' :: 'a' :: 'l' :: '0' :: patRep 1) := by
      simp [b64core, padCount, patRep, patEqual]
    rw [hsh]
    match i, hi with
    | 0, _ => simp [patEqual, List.isPrefixOf]
    | 1, _ => simp [patEqual, List.isPrefixOf]
  | [b0, b1], hr, i, hi => by
    have hlen : (b64core [b0, b1]).length = 3 := by simp [b64core]
    rw [hlen] at hi
    have hsh : b64core [b0, b1] ++ patRep (padCount [b0, b1]) =
        b64c (b0 / 4) :: b64c (b0 % 4 * 16 + b1 / 16) :: b64c (b1 % 16 * 4) ::
          ('0' :: 'e' :: 'q' :: 'u' :: 'a' :: 'l' :: '0' :: []) := by
      simp [b64core, padCount, patRep, patEqual]
    rw [hsh]
    match i, hi with
    | 0, _ => simp [patEqual, List.isPrefixOf]
    | 1, _ => simp [patEqual, List.isPrefixOf]
    | 2, _ => simp [patEqual, List.isPrefixOf]
  | b0 :: b1 :: b2 :: rest, hr, i, hi => by
    have hb0 : 33 ≤ b0 ∧ b0 ≤ 126 := hr b0 (by simp)
    have hb1 : 33 ≤ b1 ∧ b1 ≤ 126 := hr b1 (by simp)
    have hb2 : 33 ≤ b2 ∧ b2 ≤ 126 := hr b2 (by simp)
    have hsh : b64core (b0 :: b1 :: b2 :: rest) ++ patRep (padCount (b0 :: b1 :: b2 :: rest)) =
        b64c (b0 / 4) :: b64c (b0 % 4 * 16 + b1 / 16) :: b64c (b1 % 16 * 4 + b2 / 64) ::
          b64c (b2 % 64) :: (b64core rest ++ patRep (padCount rest)) := by
      rw [padCount_cons3]
      simp [b64core, List.cons_append]
    rw [hsh]
    have hlen : (b64core (b0 :: b1 :: b2 :: rest)).length = 4 + (b64core rest).length := by
      simp [b64core]
      omega
    rw [hlen] at hi
    match i, hi with
    | 0, _ =>
      simp only [List.drop_zero]
      cases hX : patEqual.isPrefixOf (b64c (b0 / 4) :: b64c (b0 % 4 * 16 + b1 / 16) ::
          b64c (b1 % 16 * 4 + b2 / 64) :: b64c (b2 % 64) ::
          (b64core rest ++ patRep (padCount rest))) with
      | false => rfl
      | true =>
        exfalso
        have h1 := patPrefix_c1 hX
        have := b64c_eq_zero (b0 / 4) (by omega) h1
        omega
    | 1, _ =>
      simp only [List.drop_succ_cons, List.drop_zero]
      cases hX : patEqual.isPrefixOf (b64c (b0 % 4 * 16 + b1 / 16) ::
          b64c (b1 % 16 * 4 + b2 / 64) :: b64c (b2 % 64) ::
          (b64core rest ++ patRep (padCount rest))) with
      | false => rfl
      | true =>
        exfalso
        have h2 := patPrefix_c2 hX
        have := b64c_eq_e (b1 % 16 * 4 + b2 / 64) (by omega) h2
        omega
    | 2, _ =>
      simp only [List.drop_succ_cons, List.drop_zero]
      cases hX : patEqual.isPrefixOf (b64c (b1 % 16 * 4 + b2 / 64) :: b64c (b2 % 64) ::
          (b64core rest ++ patRep (padCount rest))) with
      | false => rfl
      | true =>
        exfalso
        have h1 := patPrefix_c1 hX
        have h2 := patPrefix_c2 hX
        have e1 := b64c_eq_zero (b1 % 16 * 4 + b2 / 64) (by omega) h1
        have e2 := b64c_eq_e (b2 % 64) (by omega) h2
        omega
    | 3, _ =>
      simp only [List.drop_succ_cons, List.drop_zero]
      match rest with
      | [] => simp [b64core, padCount, patRep, patEqual, List.isPrefixOf]
      | [b3] =>
        have hsh2 : b64core [b3] ++ patRep (padCount [b3]) =
            b64c (b3 / 4) :: b64c (b3 % 4 * 16) ::
              ('0' :: 'e' :: 'q' :: 'u' :: 'a' :: 'l' :: '0' :: patRep 1) := by
          simp [b64core, padCount, patRep, patEqual]
        rw [hsh2]
        simp [patEqual, List.isPrefixOf]
      | [b3, b4] =>
        have hsh2 : b64core [b3, b4] ++ patRep (padCount [b3, b4]) =
            b64c (b3 / 4) :: b64c (b3 % 4 * 16 + b4 / 16) :: b64c (b4 % 16 * 4) ::
              ('0' :: 'e' :: 'q' :: 'u' :: 'a' :: 'l' :: '0' :: []) := by
          simp [b64core, padCount, patRep, patEqual]
        rw [hsh2]
        simp [patEqual, List.isPrefixOf]
      | b3 :: b4 :: b5 :: r2 =>
        have hb3 : 33 ≤ b3 ∧ b3 ≤ 126 := hr b3 (by simp)
        have hb4 : 33 ≤ b4 ∧ b4 ≤ 126 := hr b4 (by simp)
        have hsh2 : b64core (b3 :: b4 :: b5 :: r2) ++ patRep (padCount (b3 :: b4 :: b5 :: r2)) =
            b64c (b3 / 4) :: b64c (b3 % 4 * 16 + b4 / 16) :: b64c (b4 % 16 * 4 + b5 / 64) ::
              b64c (b5 % 64) :: (b64core r2 ++ patRep (padCount r2)) := by
          rw [padCount_cons3]
          simp [b64core, List.cons_append]
        rw [hsh2]
        cases hX : patEqual.isPrefixOf (b64c (b2 % 64) :: b64c (b3 / 4) ::
            b64c (b3 % 4 * 16 + b4 / 16) :: b64c (b4 % 16 * 4 + b5 / 64) ::
            b64c (b5 % 64) :: (b64core r2 ++ patRep (padCount r2))) with
        | false => rfl
        | true =>
          exfalso
          have h3 := patPrefix_c3 hX
          have := b64c_eq_q (b3 % 4 * 16 + b4 / 16) (by omega) h3
          omega
    | j + 4, hj =>
      simp only [List.drop_succ_cons]
      have hrest : ∀ b ∈ rest, 33 ≤ b ∧ b ≤ 126 := fun x hx => hr x (by simp [hx])
      exact b64core_noMatch rest hrest j (by omega)

theorem replaceEqualFuel_append : ∀ (X Y : List Char) (g : Nat),
    (∀ i, i < X.length → patEqual.isPrefixOf ((X ++ Y).drop i) = false) →
    replaceEqualFuel (X.length + g) (X ++ Y) = X ++ replaceEqualFuel g Y
  | [], Y, g, _ => by simp
  | x :: X2, Y, g, h => by
    have h0 := h 0 (by simp)
    simp only [List.drop_zero, List.cons_append] at h0
    show replaceEqualFuel (X2.length + 1 + g) (x :: (X2 ++ Y)) = _
    have hfuel : X2.length + 1 + g = (X2.length + g) + 1 := by omega
    rw [hfuel, replaceEqualFuel]
    rw [if_neg (by rw [h0]; exact Bool.false_ne_true)]
    rw [replaceEqualFuel_append X2 Y g (fun i hi => by
      have := h (i + 1) (by simp; omega)
      simpa using this)]
    rfl

theorem padscan : ∀ k : Nat, k ≤ 2 →
    replaceEqualFuel (patRep k).length (patRep k) = List.replicate k '=' := by
  intro k hk
  interval_cases k <;> decide

theorem jsReplaceEq_no_eq : ∀ l : List Char, '=' ∉ l → jsReplaceEq l = l := by
  intro l
  induction l with
  | nil => intro _; rfl
  | cons c cs ih =>
    intro h
    have hc : c ≠ '=' := by
      intro hc
      exact h (by simp [hc])
    rw [show jsReplaceEq (c :: cs) =
      (if c = '=' then patEqual else [c]) ++ jsReplaceEq cs from rfl]
    rw [if_neg hc, ih (fun hm => h (by simp [hm]))]
    rfl

theorem jsReplaceEq_replicate : ∀ k : Nat,
    jsReplaceEq (List.replicate k '=') = patRep k := by
  intro k
  induction k with
  | zero => rfl
  | succ n ih =>
    show (if ('=' : Char) = '=' then patEqual else ['=']) ++
      concatMap _ (List.replicate n '=') = patEqual ++ patRep n
    rw [if_pos rfl]
    exact congrArg _ ih

theorem b64core_no_pad : ∀ bs : List Nat, (∀ b ∈ bs, b < 256) → '=' ∉ b64core bs
  | [], _ => by simp [b64core]
  | [b0], hr => by
    have hb0 : b0 < 256 := hr b0 (by simp)
    intro hmem
    simp only [b64core, List.mem_cons, List.not_mem_nil, or_false] at hmem
    rcases hmem with h | h
    · exact b64c_ne_pad (b0 / 4) (by omega) h.symm
    · exact b64c_ne_pad (b0 % 4 * 16) (by omega) h.symm
  | [b0, b1], hr => by
    have hb0 : b0 < 256 := hr b0 (by simp)
    have hb1 : b1 < 256 := hr b1 (by simp)
    intro hmem
    simp only [b64core, List.mem_cons, List.not_mem_nil, or_false] at hmem
    rcases hmem with h | h | h
    · exact b64c_ne_pad (b0 / 4) (by omega) h.symm
    · exact b64c_ne_pad (b0 % 4 * 16 + b1 / 16) (by omega) h.symm
    · exact b64c_ne_pad (b1 % 16 * 4) (by omega) h.symm
  | b0 :: b1 :: b2 :: rest, hr => by
    have hb0 : b0 < 256 := hr b0 (by simp)
    have hb1 : b1 < 256 := hr b1 (by simp)
    have hb2 : b2 < 256 := hr b2 (by simp)
    have ih := b64core_no_pad rest (fun x hx => hr x (by simp [hx]))
    intro hmem
    simp only [b64core, List.mem_cons] at hmem
    rcases hmem with h | h | h | h | h
    · exact b64c_ne_pad (b0 / 4) (by omega) h.symm
    · exact b64c_ne_pad (b0 % 4 * 16 + b1 / 16) (by omega) h.symm
    · exact b64c_ne_pad (b1 % 16 * 4 + b2 / 64) (by omega) h.symm
    · exact b64c_ne_pad (b2 % 64) (by omega) h.symm
    · exact ih h

theorem padCount_le_two (bs : List Nat) : padCount bs ≤ 2 := by
  unfold padCount
  rcases h : bs.length % 3 with _ | _ | n <;> simp

theorem jsReplaceEq_append (x y : List Char) :
    jsReplaceEq (x ++ y) = jsReplaceEq x ++ jsReplaceEq y :=
  concatMap_append _ x y

theorem replaceEqual_restores (bs : List Nat) (hr : ∀ b ∈ bs, 33 ≤ b ∧ b ≤ 126) :
    replaceEqual (jsReplaceEq (btoa bs)) = btoa bs := by
  have h256 : ∀ b ∈ bs, b < 256 := fun b hb => by
    have := hr b hb
    omega
  rw [btoa_core_pads bs, jsReplaceEq_append,
    jsReplaceEq_no_eq (b64core bs) (b64core_no_pad bs h256),
    jsReplaceEq_replicate]
  unfold replaceEqual
  rw [List.length_append]
  rw [replaceEqualFuel_append (b64core bs) (patRep (padCount bs)) (patRep (padCount bs)).length
    (b64core_noMatch bs hr)]
  rw [padscan (padCount bs) (padCount_le_two bs)]

theorem decodeFromPeerID_encode (s : List Char) :
    decodeFromPeerID (encodeToPeerID s) = some s := by
  unfold encodeToPeerID decodeFromPeerID
  have hsplit : jsReplaceEq (('0' :: btoa (encodeURIComponent s)) ++ ['0']) =
      ('0' :: jsReplaceEq (btoa (encodeURIComponent s))) ++ ['0'] := by
    rw [jsReplaceEq_append]
    rw [show jsReplaceEq ('0' :: btoa (encodeURIComponent s)) =
      (if ('0' : Char) = '=' then patEqual else ['0']) ++
        jsReplaceEq (btoa (encodeURIComponent s)) from rfl]
    rw [if_neg (by decide)]
    rfl
  rw [hsplit]
  rw [show ((('0' :: jsReplaceEq (btoa (encodeURIComponent s))) ++ ['0']).drop 1) =
    jsReplaceEq (btoa (encodeURIComponent s)) ++ ['0'] from rfl]
  rw [show (jsReplaceEq (btoa (encodeURIComponent s)) ++ ['0']).dropLast =
    jsReplaceEq (btoa (encodeURIComponent s)) by simp]
  rw [replaceEqual_restores (encodeURIComponent s) (encodeURIComponent_range s)]
  rw [atob_btoa (encodeURIComponent s) (fun b hb => by
    have := encodeURIComponent_range s b hb
    omega)]
  exact decodeURIBytes_encode s

/-- C9: the identity codec round-trips: decoding an encoded mesh identity
recovers it exactly, for every string. -/
theorem peerID_codec_roundTrip (s : String) :
    decodeFromPeerIDStr (encodeToPeerIDStr s) = some s := by
  unfold encodeToPeerIDStr decodeFromPeerIDStr
  rw [show (String.mk (encodeToPeerID s.data)).data = encodeToPeerID s.data from rfl]
  rw [decodeFromPeerID_encode]
  cases s
  rfl
